import Mathlib

/-!
Shallow embedding of the commit-activity calendar core of `git-cal`
(`src/main.rs`): the date bucketizer, the intensity classifier
(`get_contribution_block`), the calendar window geometry, the month-label
header, and the activity summary emitted by `print_contribution_calendar`.

Modelling conventions:
* Calendar dates are `Int` day numbers with day 0 = 1970-01-01 (a Thursday),
  matching the Unix epoch used by the source's timestamps.
* The composite `chrono::DateTime::from_timestamp(..).map(|dt|
  dt.with_timezone(&Local).date_naive())` conversion — an external library
  call depending on the host timezone — is modelled as an explicit parameter
  `toDate : Int → Option Int` from commit timestamps to optional local day
  numbers (`none` models an unrepresentable instant).
* `usize` counts are `Nat`; the f64 expression
  `(count as f64 / max as f64 * 4.0).ceil() as usize` is modelled by the
  exact rational ceiling `(count * 4 + (max - 1)) / max`, which agrees with
  the f64 computation on all representable inputs.
* ANSI colors and the five-character left gutter of every printed line are
  text presentation; the structured output keeps the glyph identity of each
  cell and the textual content of the header and summary.
-/

namespace GitCal

/-- The five distinct colored blocks `get_contribution_block` can print:
the dark zero block and the four gradient blocks (yellow, orange,
light green, green). -/
inductive Glyph
  | dark
  | yellow
  | orange
  | lightGreen
  | green
deriving DecidableEq, Repr

/-- Exact value of `(count as f64 / max as f64 * 4.0).ceil() as usize`
from `get_contribution_block`: the ceiling of `count * 4 / max` as a
natural number. -/
def intensity (count mx : Nat) : Nat :=
  (count * 4 + (mx - 1)) / mx

/-- Function `get_contribution_block` from `src/main.rs` (lines 365–379): zero count
gives the dark block, otherwise the intensity is matched against 1, 2, 3
with a catch-all arm giving the top (green) block. -/
def get_contribution_block (count mx : Nat) : Glyph :=
  if count = 0 then Glyph.dark
  else if intensity count mx = 1 then Glyph.yellow
  else if intensity count mx = 2 then Glyph.orange
  else if intensity count mx = 3 then Glyph.lightGreen
  else Glyph.green

/-- The ordinal intensity level a glyph renders (0 = zero-count block,
4 = top block). -/
def glyphLevel : Glyph → Nat
  | .dark => 0
  | .yellow => 1
  | .orange => 2
  | .lightGreen => 3
  | .green => 4

/-- The `commits_by_date` map (`HashMap<NaiveDate, usize>`), modelled as an
association list with unique keys from day number to count. -/
abbrev DateBucketMap := List (Int × Nat)

/-- Models `*commits_by_date.entry(date).or_insert(0) += 1`: increment the bucket
of `d`, inserting it with count 1 when absent. -/
def incr : DateBucketMap → Int → DateBucketMap
  | [], d => [(d, 1)]
  | (k, v) :: rest, d =>
      if k = d then (k, v + 1) :: rest else (k, v) :: incr rest d

/-- Models `commits_by_date.get(&date).copied().unwrap_or(0)`. -/
def lookup : DateBucketMap → Int → Nat
  | [], _ => 0
  | (k, v) :: rest, d => if k = d then v else lookup rest d

/-- One iteration of the commit loop of `print_contribution_calendar`
(lines 288–300): convert the timestamp to a local date; on success and if
the date lies in `[startDate, today]`, bump that date's bucket; otherwise
leave the map unchanged. -/
def bucketStep (toDate : Int → Option Int) (startDate today : Int)
    (m : DateBucketMap) (t : Int) : DateBucketMap :=
  match toDate t with
  | some d => if startDate ≤ d ∧ d ≤ today then incr m d else m
  | none => m

/-- The whole commit loop: fold `bucketStep` over the commit timestamps,
starting from the empty map. -/
def bucketize (toDate : Int → Option Int) (startDate today : Int)
    (commits : List Int) : DateBucketMap :=
  commits.foldl (bucketStep toDate startDate today) []

/-- Models `commits_by_date.values().sum()`. -/
def totalCommits (m : DateBucketMap) : Nat :=
  (m.map Prod.snd).sum

/-- Models `commits_by_date.len()`. -/
def activeDays (m : DateBucketMap) : Nat :=
  m.length

/-- Models `commits_by_date.values().max().copied().unwrap_or(1).max(1)`
(line 303): the largest bucket value, floored at 1. -/
def maxCommits (m : DateBucketMap) : Nat :=
  Nat.max ((m.map Prod.snd).foldr Nat.max 0) 1

/-- Models `date.weekday().num_days_from_sunday()` for a day number: day 0
(1970-01-01) was a Thursday, 4 days after Sunday. Always in `[0, 6]`. -/
def daysFromSunday (d : Int) : Int :=
  (d + 4) % 7

/-- Window start computation of `print_contribution_calendar`
(lines 270–276): `today - 52*7` days, then shifted back to the most
recent Sunday. -/
def windowStart (today : Int) : Int :=
  let s := today - 52 * 7
  s - daysFromSunday s

/-- Function `month_abbr` from `src/main.rs` (lines 381–397). -/
def month_abbr (m : Int) : String :=
  if m = 1 then "Jan"
  else if m = 2 then "Feb"
  else if m = 3 then "Mar"
  else if m = 4 then "Apr"
  else if m = 5 then "May"
  else if m = 6 then "Jun"
  else if m = 7 then "Jul"
  else if m = 8 then "Aug"
  else if m = 9 then "Sep"
  else if m = 10 then "Oct"
  else if m = 11 then "Nov"
  else if m = 12 then "Dec"
  else "   "

/-- Standard proleptic Gregorian conversion from a day number (day 0 =
1970-01-01) to `(year, month, day)`, modelling `chrono::NaiveDate`'s
calendar accessors. -/
def civilFromDays (z : Int) : Int × Int × Int :=
  let z' := z + 719468
  let era := Int.ediv z' 146097
  let doe := z' - era * 146097
  let yoe :=
    Int.ediv (doe - Int.ediv doe 1460 + Int.ediv doe 36524 - Int.ediv doe 146096) 365
  let y := yoe + era * 400
  let doy := doe - (365 * yoe + Int.ediv yoe 4 - Int.ediv yoe 100)
  let mp := Int.ediv (5 * doy + 2) 153
  let d := doy - Int.ediv (153 * mp + 2) 5 + 1
  let m := if mp < 10 then mp + 3 else mp - 9
  (if m ≤ 2 then y + 1 else y, m, d)

/-- Models `date.month()`: the calendar month (1–12) of a day number. -/
def monthOfDay (d : Int) : Int :=
  (civilFromDays d).2.1

/-- The month-label loop of `print_contribution_calendar` (lines 306–319):
walk the list of week-start dates carrying `current_month`; print the
abbreviated month when it differs from `current_month` (updating it),
otherwise print two spaces. In both branches the state after a column is
`some` of that column's month. -/
def monthRow (monthOf : Int → Int) : Option Int → List Int → List String
  | _, [] => []
  | cur, w :: ws =>
      (if cur = some (monthOf w) then "  " else month_abbr (monthOf w))
        :: monthRow monthOf (some (monthOf w)) ws

/-- A rendered grid position: either the two-space placeholder printed for
dates after `today`, or a colored block. -/
inductive Cell
  | blank
  | cell (g : Glyph)
deriving DecidableEq, Repr

/-- One grid position of the calendar loop (lines 331–341): the date is
`start_date + (week*7 + day_idx)` days; dates after `today` print the
empty placeholder, others print the contribution block for the date's
bucket count. -/
def cellAt (today startDate : Int) (m : DateBucketMap) (mx : Nat)
    (week day : Nat) : Cell :=
  let date := startDate + ((week * 7 + day : Nat) : Int)
  if today < date then Cell.blank
  else Cell.cell (get_contribution_block (lookup m date) mx)

/-- The structured output of `print_contribution_calendar`: the month
header (one string per week column), the 7 × 52 grid (rows indexed by
day-of-week), the legend blocks, and the summary sentence. -/
structure CalendarOutput where
  monthHeader : List String
  grid : List (List Cell)
  legend : List Glyph
  summary : String
deriving DecidableEq, Repr

/-- The body of `print_contribution_calendar` after the revwalk has been
created (lines 270–362), as a pure function of `today`, the timestamp
conversion, and the commit timestamps the walk yields. -/
def renderCalendar (toDate : Int → Option Int) (today : Int)
    (commits : List Int) : CalendarOutput :=
  let startDate := windowStart today
  let m := bucketize toDate startDate today commits
  let mx := maxCommits m
  { monthHeader :=
      monthRow monthOfDay none
        ((List.range 52).map (fun w => startDate + ((w * 7 : Nat) : Int)))
    grid :=
      (List.range 7).map (fun day =>
        (List.range 52).map (fun week => cellAt today startDate m mx week day))
    legend := [Glyph.dark, Glyph.yellow, Glyph.orange, Glyph.lightGreen, Glyph.green]
    summary :=
      toString (totalCommits m) ++ " commits in the last year across "
        ++ toString (activeDays m) ++ " days" }

/-- Outcome of `repo.revwalk()` at the top of the calendar function:
either the walk cannot be created (`err`), or it is created and yields a
(possibly empty) list of commit timestamps — `push_head()` failures are
discarded with `.ok()`, leaving an empty walk. -/
inductive RevwalkResult
  | err
  | walk (commits : List Int)

/-- Function `print_contribution_calendar` (lines 269–363): when `repo.revwalk()`
fails the function returns early and prints nothing (`Err(_) => return`);
otherwise it renders the full calendar from the commits the walk yields. -/
def print_contribution_calendar (toDate : Int → Option Int) (today : Int)
    (src : RevwalkResult) : Option CalendarOutput :=
  match src with
  | .err => none
  | .walk commits => some (renderCalendar toDate today commits)

/-- Window membership test for one commit timestamp: it converts to a date
lying in `[startDate, today]`. -/
def inWindow (toDate : Int → Option Int) (startDate today : Int) (c : Int) : Bool :=
  match toDate c with
  | some d => decide (startDate ≤ d) && decide (d ≤ today)
  | none => false

/-- Test that one commit timestamp converts to exactly the date `d` and
falls inside the window. -/
def hitsDate (toDate : Int → Option Int) (startDate today d : Int) (c : Int) : Bool :=
  match toDate c with
  | some e => decide (e = d) && decide (startDate ≤ e) && decide (e ≤ today)
  | none => false

/-! ### Arithmetic facts about the intensity computation -/

lemma intensity_pos (count mx : Nat) (hc : 1 ≤ count) (hmx : 1 ≤ mx) :
    1 ≤ intensity count mx := by
  unfold intensity
  rw [Nat.le_div_iff_mul_le (by omega : 0 < mx)]
  omega

/-- The natural-number division used in `intensity` is the exact rational
ceiling of `a / mx`. -/
lemma ceil_div_eq (a mx : Nat) (hmx : 1 ≤ mx) :
    ⌈(a : ℚ) / mx⌉₊ = (a + (mx - 1)) / mx := by
  have hmx0 : 0 < mx := hmx
  rcases Nat.eq_zero_or_pos a with ha | ha
  · subst ha
    simp [Nat.div_eq_of_lt (by omega : mx - 1 < mx)]
  · have h1 : (a + (mx - 1)) / mx * mx ≤ a + (mx - 1) :=
      Nat.div_mul_le_self _ _
    have h2 : a + (mx - 1) < ((a + (mx - 1)) / mx + 1) * mx :=
      (Nat.div_lt_iff_lt_mul hmx0).mp (Nat.lt_succ_self _)
    have hn1 : 1 ≤ (a + (mx - 1)) / mx := by
      rw [Nat.le_div_iff_mul_le hmx0]; omega
    have hub : a ≤ (a + (mx - 1)) / mx * mx := by
      rw [Nat.succ_mul] at h2
      generalize (a + (mx - 1)) / mx * mx = p at h2 ⊢
      omega
    have hlb : ((a + (mx - 1)) / mx - 1) * mx < a := by
      rw [Nat.sub_one_mul]
      generalize (a + (mx - 1)) / mx * mx = p at h1 ⊢
      omega
    have hq0 : (0 : ℚ) < (mx : ℚ) := by exact_mod_cast hmx0
    refine (Nat.ceil_eq_iff (by omega)).mpr ⟨?_, ?_⟩
    · rw [lt_div_iff₀ hq0]
      exact_mod_cast hlb
    · rw [div_le_iff₀ hq0]
      exact_mod_cast hub

/-- Lemma: `intensity` computes exactly the ceiling `ceil(count / mx * 4)` of the
specification. -/
lemma intensity_eq_ceil (count mx : Nat) (hmx : 1 ≤ mx) :
    ⌈(count : ℚ) / mx * 4⌉₊ = intensity count mx := by
  have h : (count : ℚ) / mx * 4 = ((count * 4 : ℕ) : ℚ) / mx := by
    push_cast; ring
  rw [h, ceil_div_eq (count * 4) mx hmx]
  rfl

/-- C1: the intensity classifier maps a count and window maximum to a level
in {0,…,4}: a zero count gives level 0; for `count ≥ 1` and `maxCount ≥ 1`
the rendered level is `ceil(count / maxCount * 4)` clamped to `[1, 4]`; in
particular a single commit against a window maximum of 1 renders at the top
level 4. -/
theorem intensity_classifier_level (count mx : Nat) (hmx : 1 ≤ mx) :
    (count = 0 → glyphLevel (get_contribution_block count mx) = 0) ∧
    (1 ≤ count →
      glyphLevel (get_contribution_block count mx)
        = min (max 1 ⌈(count : ℚ) / mx * 4⌉₊) 4) ∧
    (mx = 1 → count = 1 → glyphLevel (get_contribution_block count mx) = 4) := by
  have hceil := intensity_eq_ceil count mx hmx
  refine ⟨fun h0 => by simp [get_contribution_block, h0, glyphLevel],
    fun hc => ?_, fun h1 hc1 => by subst h1; subst hc1; rfl⟩
  rw [hceil]
  have hpos : 1 ≤ intensity count mx := intensity_pos count mx hc hmx
  unfold get_contribution_block
  rw [if_neg (by omega : ¬ count = 0)]
  split_ifs with e1 e2 e3
  · rw [e1]; rfl
  · rw [e2]; rfl
  · rw [e3]; rfl
  · have h4 : 4 ≤ intensity count mx := by omega
    rw [max_eq_right (by omega : 1 ≤ intensity count mx),
      min_eq_right h4]
    rfl

/-- Witness for C1 at `count = 1`, `maxCount = 1`: the single commit day is
rendered at the maximum level 4. -/
theorem intensity_classifier_level_witness :
    glyphLevel (get_contribution_block 1 1) = 4 :=
  (intensity_classifier_level 1 1 (by decide)).2.2 rfl rfl

/-- C10: `get_contribution_block` is total on all `count ≥ 0`, `max ≥ 1`
(even when `count > max` breaks the intended invariant): it always returns
one of the five glyphs, the dark glyph exactly for `count = 0`, and every
intensity of 4 or more — including the out-of-range ones produced when
`count > max` — collapses to the top green glyph through the catch-all
match arm. -/
theorem get_contribution_block_total (count mx : Nat) (hmx : 1 ≤ mx) :
    (get_contribution_block count mx = Glyph.dark ∨
     get_contribution_block count mx = Glyph.yellow ∨
     get_contribution_block count mx = Glyph.orange ∨
     get_contribution_block count mx = Glyph.lightGreen ∨
     get_contribution_block count mx = Glyph.green) ∧
    (count = 0 → get_contribution_block count mx = Glyph.dark) ∧
    (count ≠ 0 → get_contribution_block count mx ≠ Glyph.dark) ∧
    (count ≠ 0 → 4 ≤ intensity count mx →
      get_contribution_block count mx = Glyph.green) ∧
    (mx < count → get_contribution_block count mx = Glyph.green) := by
  have green_of : ∀ hnz : count ≠ 0, 4 ≤ intensity count mx →
      get_contribution_block count mx = Glyph.green := by
    intro hnz h4
    unfold get_contribution_block
    rw [if_neg hnz, if_neg (by omega), if_neg (by omega), if_neg (by omega)]
  refine ⟨?_, fun h0 => by simp [get_contribution_block, h0], ?_, green_of, ?_⟩
  · cases h : get_contribution_block count mx <;> simp
  · intro hnz
    unfold get_contribution_block
    rw [if_neg hnz]
    split_ifs <;> simp
  · intro hlt
    have hnz : count ≠ 0 := by omega
    have h4 : 4 ≤ intensity count mx := by
      unfold intensity
      rw [Nat.le_div_iff_mul_le (by omega : 0 < mx)]
      omega
    exact green_of hnz h4

/-- Witness for C10 at `count = 10`, `max = 1` (violating `count ≤ max`;
intensity 40): the catch-all arm yields the top glyph. -/
theorem get_contribution_block_total_witness :
    get_contribution_block 10 1 = Glyph.green :=
  (get_contribution_block_total 10 1 (by decide)).2.2.2.2 (by decide)

/-! ### The date bucketizer: counting, permutation invariance, skipping -/

lemma totalCommits_incr (m : DateBucketMap) (d : Int) :
    totalCommits (incr m d) = totalCommits m + 1 := by
  induction m with
  | nil => rfl
  | cons p rest ih =>
      rcases p with ⟨k, v⟩
      by_cases h : k = d
      · simp [incr, h, totalCommits]
        omega
      · simp only [incr, if_neg h]
        simp only [totalCommits, List.map_cons, List.sum_cons] at ih ⊢
        omega

lemma totalCommits_foldl (toDate : Int → Option Int) (s t : Int) :
    ∀ (cs : List Int) (m : DateBucketMap),
      totalCommits (cs.foldl (bucketStep toDate s t) m)
        = totalCommits m + cs.countP (inWindow toDate s t) := by
  intro cs
  induction cs with
  | nil => intro m; simp
  | cons c cs ih =>
      intro m
      rw [List.foldl_cons, ih, List.countP_cons]
      cases h : toDate c with
      | none =>
          have hstep : bucketStep toDate s t m c = m := by
            unfold bucketStep; rw [h]
          have hwin : inWindow toDate s t c = false := by
            unfold inWindow; rw [h]
          rw [hstep, hwin]
          simp
      | some d =>
          have hwin : inWindow toDate s t c
              = (decide (s ≤ d) && decide (d ≤ t)) := by
            unfold inWindow; rw [h]
          by_cases hw : s ≤ d ∧ d ≤ t
          · have hstep : bucketStep toDate s t m c = incr m d := by
              unfold bucketStep; rw [h]; exact if_pos hw
            rw [hstep, totalCommits_incr, hwin,
              if_pos (by simp [hw.1, hw.2])]
            omega
          · have hstep : bucketStep toDate s t m c = m := by
              unfold bucketStep; rw [h]; exact if_neg hw
            rw [hstep, hwin, if_neg (by
              simp only [Bool.and_eq_true, decide_eq_true_eq, not_and]
              intro hse het
              exact hw ⟨hse, het⟩)]
            omega

/-- C2: the bucketizer counts exactly the commits whose date lies in the
closed window `[startDate, today]`: the sum of all bucket values equals the
number of in-window commits; out-of-window (and unconvertible) commits are
silently discarded, for every commit list and every conversion function. -/
theorem bucketize_counts_window (toDate : Int → Option Int) (s t : Int)
    (cs : List Int) :
    totalCommits (bucketize toDate s t cs) = cs.countP (inWindow toDate s t) := by
  unfold bucketize
  rw [totalCommits_foldl]
  simp [totalCommits]

lemma lookup_incr (m : DateBucketMap) (d e : Int) :
    lookup (incr m d) e = lookup m e + (if d = e then 1 else 0) := by
  induction m with
  | nil =>
      simp only [incr, lookup]
      by_cases h : d = e <;> simp [h]
  | cons p rest ih =>
      rcases p with ⟨k, v⟩
      by_cases hkd : k = d
      · subst hkd
        simp only [incr, if_pos rfl, lookup]
        by_cases hke : k = e <;> simp [hke]
      · simp only [incr, if_neg hkd, lookup]
        by_cases hke : k = e
        · subst hke
          rw [if_pos rfl, if_pos rfl, if_neg (fun h => hkd h.symm)]
          omega
        · rw [if_neg hke, if_neg hke, ih]

lemma lookup_foldl (toDate : Int → Option Int) (s t d : Int) :
    ∀ (cs : List Int) (m : DateBucketMap),
      lookup (cs.foldl (bucketStep toDate s t) m) d
        = lookup m d + cs.countP (hitsDate toDate s t d) := by
  intro cs
  induction cs with
  | nil => intro m; simp
  | cons c cs ih =>
      intro m
      rw [List.foldl_cons, ih, List.countP_cons]
      cases h : toDate c with
      | none =>
          have hstep : bucketStep toDate s t m c = m := by
            unfold bucketStep; rw [h]
          have hhit : hitsDate toDate s t d c = false := by
            unfold hitsDate; rw [h]
          rw [hstep, hhit]
          simp
      | some e =>
          have hhit : hitsDate toDate s t d c
              = (decide (e = d) && decide (s ≤ e) && decide (e ≤ t)) := by
            unfold hitsDate; rw [h]
          by_cases hw : s ≤ e ∧ e ≤ t
          · have hstep : bucketStep toDate s t m c = incr m e := by
              unfold bucketStep; rw [h]; exact if_pos hw
            rw [hstep, lookup_incr, hhit]
            by_cases hed : e = d
            · subst hed
              rw [if_pos rfl, if_pos (by simp [hw.1, hw.2])]
              omega
            · rw [if_neg hed, if_neg (by simp [hed])]
              omega
          · have hstep : bucketStep toDate s t m c = m := by
              unfold bucketStep; rw [h]; exact if_neg hw
            rw [hstep, hhit, if_neg (by
              simp only [Bool.and_eq_true, decide_eq_true_eq, not_and]
              intro hand
              exact fun het => hw ⟨hand.2, het⟩)]
            omega

/-- C9: the bucketizer is order-independent — any two permutations of the
same commit records produce the same `DateBucketMap` (the same bucket value
at every date), because accumulation is commutative. -/
theorem bucketize_perm_invariant (toDate : Int → Option Int) (s t : Int)
    (cs₁ cs₂ : List Int) (hp : cs₁.Perm cs₂) (d : Int) :
    lookup (bucketize toDate s t cs₁) d = lookup (bucketize toDate s t cs₂) d := by
  unfold bucketize
  rw [lookup_foldl, lookup_foldl, hp.countP_eq]

/-- Witness for C9: the two scan orders `[3, 5]` and `[5, 3]` produce the
same bucket for date 3. -/
theorem bucketize_perm_invariant_witness :
    lookup (bucketize (fun n => some n) 0 10 [3, 5]) 3
      = lookup (bucketize (fun n => some n) 0 10 [5, 3]) 3 :=
  bucketize_perm_invariant (fun n => some n) 0 10 [3, 5] [5, 3]
    (List.Perm.swap 5 3 []) 3

/-- C8: a commit whose timestamp cannot be converted to a calendar date
(`toDate` returns `none`) is skipped on its own: removing it from the scan
leaves the resulting `DateBucketMap` literally unchanged, and the
aggregation over the remaining commits proceeds as if it were absent. -/
theorem bucketize_skips_unconvertible (toDate : Int → Option Int) (s t : Int)
    (xs ys : List Int) (c : Int) (h : toDate c = none) :
    bucketize toDate s t (xs ++ c :: ys) = bucketize toDate s t (xs ++ ys) := by
  unfold bucketize
  rw [List.foldl_append, List.foldl_append, List.foldl_cons]
  have hstep : ∀ m : DateBucketMap, bucketStep toDate s t m c = m := by
    intro m
    unfold bucketStep
    rw [h]
  rw [hstep]

/-- Witness for C8: with a conversion that fails exactly on timestamp 5,
the scan `[1, 5, 2]` produces the same map as `[1, 2]`. -/
theorem bucketize_skips_unconvertible_witness :
    bucketize (fun n => if n = 5 then none else some n) 0 10 [1, 5, 2]
      = bucketize (fun n => if n = 5 then none else some n) 0 10 [1, 2] :=
  bucketize_skips_unconvertible (fun n => if n = 5 then none else some n)
    0 10 [1] [2] 5 (by simp)

/-! ### Window geometry -/

/-- C3: the window start is `today - 52*7` days shifted back to the most
recent Sunday: it never exceeds `today`, always falls on the first weekday
(Sunday, weekday offset 0), is the latest such Sunday, and
`today - windowStart` is the multiple of 7 `52*7` plus an alignment offset
between 0 and 6 days. -/
theorem window_start_aligned (today : Int) :
    windowStart today ≤ today ∧
    daysFromSunday (windowStart today) = 0 ∧
    windowStart today = today - 52 * 7 - daysFromSunday (today - 52 * 7) ∧
    0 ≤ daysFromSunday (today - 52 * 7) ∧
    daysFromSunday (today - 52 * 7) ≤ 6 ∧
    today - windowStart today = 52 * 7 + daysFromSunday (today - 52 * 7) ∧
    (∀ d : Int, daysFromSunday d = 0 → d ≤ today - 52 * 7 →
      d ≤ windowStart today) := by
  simp only [windowStart, daysFromSunday]
  refine ⟨by omega, by omega, by trivial, by omega, by omega, by omega,
    fun d h1 h2 => by omega⟩

/-- Witness for C3 at `today = 1000`: the window start is a Sunday-aligned
date not after today. -/
theorem window_start_aligned_witness :
    daysFromSunday (windowStart 1000) = 0 ∧ windowStart 1000 ≤ 1000 :=
  ⟨(window_start_aligned 1000).2.1, (window_start_aligned 1000).1⟩

/-! ### Invariants of the bucket map -/

lemma mem_incr (m : DateBucketMap) (d : Int) (p : Int × Nat)
    (hp : p ∈ incr m d) : p.1 = d ∨ p ∈ m := by
  induction m with
  | nil =>
      simp only [incr, List.mem_singleton] at hp
      subst hp
      exact Or.inl rfl
  | cons q rest ih =>
      rcases q with ⟨k, v⟩
      by_cases h : k = d
      · subst h
        simp [incr] at hp
        rcases hp with h1 | h2
        · exact Or.inl (by rw [h1])
        · exact Or.inr (List.mem_cons_of_mem _ h2)
      · simp only [incr, if_neg h, List.mem_cons] at hp
        rcases hp with h1 | h2
        · exact Or.inr (by rw [h1]; exact List.mem_cons_self _ _)
        · rcases ih h2 with h3 | h4
          · exact Or.inl h3
          · exact Or.inr (List.mem_cons_of_mem _ h4)

lemma incr_vals_pos (m : DateBucketMap) (d : Int)
    (hm : ∀ q ∈ m, 1 ≤ q.2) : ∀ p ∈ incr m d, 1 ≤ p.2 := by
  induction m with
  | nil =>
      intro p hp
      simp only [incr, List.mem_singleton] at hp
      subst hp
      exact le_refl 1
  | cons q rest ih =>
      rcases q with ⟨k, v⟩
      intro p hp
      by_cases h : k = d
      · subst h
        simp [incr] at hp
        rcases hp with h1 | h2
        · rw [h1]; exact Nat.le_add_left 1 v
        · exact hm p (List.mem_cons_of_mem _ h2)
      · simp only [incr, if_neg h, List.mem_cons] at hp
        rcases hp with h1 | h2
        · exact hm p (by rw [h1]; exact List.mem_cons_self _ _)
        · exact ih (fun q hq => hm q (List.mem_cons_of_mem _ hq)) p h2

lemma foldl_keys_in_window (toDate : Int → Option Int) (s t : Int) :
    ∀ (cs : List Int) (m : DateBucketMap),
      (∀ p ∈ m, s ≤ p.1 ∧ p.1 ≤ t) →
      ∀ p ∈ cs.foldl (bucketStep toDate s t) m, s ≤ p.1 ∧ p.1 ≤ t := by
  intro cs
  induction cs with
  | nil => intro m hm p hp; exact hm p (by simpa using hp)
  | cons c cs ih =>
      intro m hm
      rw [List.foldl_cons]
      apply ih
      intro p hp
      rcases hh : toDate c with _ | d
      · have he : bucketStep toDate s t m c = m := by
          unfold bucketStep; rw [hh]
        rw [he] at hp
        exact hm p hp
      · by_cases hw : s ≤ d ∧ d ≤ t
        · have he : bucketStep toDate s t m c = incr m d := by
            unfold bucketStep; rw [hh]; exact if_pos hw
          rw [he] at hp
          rcases mem_incr m d p hp with h1 | h2
          · exact ⟨by rw [h1]; exact hw.1, by rw [h1]; exact hw.2⟩
          · exact hm p h2
        · have he : bucketStep toDate s t m c = m := by
            unfold bucketStep; rw [hh]; exact if_neg hw
          rw [he] at hp
          exact hm p hp

lemma foldl_vals_pos (toDate : Int → Option Int) (s t : Int) :
    ∀ (cs : List Int) (m : DateBucketMap),
      (∀ q ∈ m, 1 ≤ q.2) →
      ∀ p ∈ cs.foldl (bucketStep toDate s t) m, 1 ≤ p.2 := by
  intro cs
  induction cs with
  | nil => intro m hm p hp; exact hm p (by simpa using hp)
  | cons c cs ih =>
      intro m hm
      rw [List.foldl_cons]
      apply ih
      intro p hp
      rcases hh : toDate c with _ | d
      · have he : bucketStep toDate s t m c = m := by
          unfold bucketStep; rw [hh]
        rw [he] at hp
        exact hm p hp
      · by_cases hw : s ≤ d ∧ d ≤ t
        · have he : bucketStep toDate s t m c = incr m d := by
            unfold bucketStep; rw [hh]; exact if_pos hw
          rw [he] at hp
          exact incr_vals_pos m d hm p hp
        · have he : bucketStep toDate s t m c = m := by
            unfold bucketStep; rw [hh]; exact if_neg hw
          rw [he] at hp
          exact hm p hp

/-- C4: the grid cell `(week, dayOfWeek)` maps to the date
`startDate + (week*7 + dayOfWeek)` days; a mapped date strictly after
`today` renders as the empty placeholder (distinct from every intensity
cell, including the zero-intensity one), an in-window date renders its
bucket's block; commits dated after `today` never change the map, and
every bucket key lies in `[startDate, today]`. -/
theorem grid_future_rule (toDate : Int → Option Int) (today startDate : Int)
    (m : DateBucketMap) (mx : Nat) (week day : Nat) :
    (today < startDate + ((week * 7 + day : Nat) : Int) →
      cellAt today startDate m mx week day = Cell.blank) ∧
    (startDate + ((week * 7 + day : Nat) : Int) ≤ today →
      cellAt today startDate m mx week day
        = Cell.cell (get_contribution_block
            (lookup m (startDate + ((week * 7 + day : Nat) : Int))) mx)) ∧
    (∀ g, Cell.blank ≠ Cell.cell g) ∧
    (∀ c d, toDate c = some d → today < d →
      bucketStep toDate startDate today m c = m) ∧
    (∀ cs, ∀ p ∈ bucketize toDate startDate today cs,
      startDate ≤ p.1 ∧ p.1 ≤ today) := by
  refine ⟨fun h => ?_, fun h => ?_, fun g => by simp, fun c d hc hd => ?_, ?_⟩
  · unfold cellAt
    rw [if_pos h]
  · unfold cellAt
    rw [if_neg (not_lt.mpr h)]
  · unfold bucketStep
    rw [hc]
    exact if_neg (fun hw => absurd hw.2 (not_le.mpr hd))
  · intro cs p hp
    exact foldl_keys_in_window toDate startDate today cs [] (by simp) p hp

/-- Witness for C4: with `today = 0` and `startDate = 10`, the cell
`(0, 0)` maps to date 10 in the future and renders as the placeholder. -/
theorem grid_future_rule_witness :
    cellAt 0 10 [] 1 0 0 = Cell.blank :=
  (grid_future_rule (fun n => some n) 0 10 [] 1 0 0).1 (by decide)

/-! ### Month-label header -/

lemma monthRow_length (monthOf : Int → Int) :
    ∀ (cur : Option Int) (ws : List Int),
      (monthRow monthOf cur ws).length = ws.length := by
  intro cur ws
  induction ws generalizing cur with
  | nil => rfl
  | cons w ws ih => simp [monthRow, ih]

lemma monthRow_getD_succ (monthOf : Int → Int) :
    ∀ (ws : List Int) (cur : Option Int) (i : Nat), i + 1 < ws.length →
      (monthRow monthOf cur ws).getD (i + 1) ""
        = (if monthOf (ws.getD (i + 1) 0) = monthOf (ws.getD i 0) then "  "
           else month_abbr (monthOf (ws.getD (i + 1) 0))) := by
  intro ws
  induction ws with
  | nil => intro cur i h; simp at h
  | cons w ws ih =>
      intro cur i h
      rcases i with _ | j
      · rcases ws with _ | ⟨w2, rest⟩
        · simp at h
        · simp only [monthRow, List.getD_cons_succ, List.getD_cons_zero]
          by_cases hm : monthOf w2 = monthOf w
          · rw [if_pos (by rw [hm]), if_pos hm]
          · rw [if_neg (fun hc => hm (Option.some.inj hc).symm), if_neg hm]
      · simp only [monthRow, List.getD_cons_succ]
        exact ih (some (monthOf w)) j (by simpa using h)

/-- C5 (amended): in the month header, column 0 always shows the label of
its month; every later column shows the abbreviated label of its week's
month exactly when that month differs from the immediately preceding
column's month, so no two adjacent same-month columns are both labelled —
but the blank emitted otherwise is two spaces (one grid column wide),
narrower than the three-character labels. The header of the rendered
calendar is exactly this row over the 52 week-start dates. -/
theorem month_labels (monthOf : Int → Int) (ws : List Int) :
    (monthRow monthOf none ws).length = ws.length ∧
    (∀ w rest, ws = w :: rest →
      (monthRow monthOf none ws).getD 0 "" = month_abbr (monthOf w)) ∧
    (∀ i : Nat, i + 1 < ws.length →
      (monthRow monthOf none ws).getD (i + 1) ""
        = (if monthOf (ws.getD (i + 1) 0) = monthOf (ws.getD i 0) then "  "
           else month_abbr (monthOf (ws.getD (i + 1) 0)))) ∧
    ("  " : String).length = 2 ∧
    (∀ m : Int, 1 ≤ m → m ≤ 12 → (month_abbr m).length = 3) ∧
    (∀ (toDate : Int → Option Int) (today : Int) (cs : List Int),
      (renderCalendar toDate today cs).monthHeader
        = monthRow monthOfDay none
            ((List.range 52).map
              (fun w => windowStart today + ((w * 7 : Nat) : Int)))) := by
  refine ⟨monthRow_length monthOf none ws, ?_,
    fun i h => monthRow_getD_succ monthOf ws none i h, rfl, ?_,
    fun toDate today cs => rfl⟩
  · intro w rest hws
    subst hws
    simp [monthRow]
  · intro m h1 h2
    interval_cases m <;> rfl

/-- Witness for C5 (amended) on the concrete header over week starts
1970-01-01 and 1970-01-08 (both January): the second column is blank. -/
theorem month_labels_witness :
    (monthRow monthOfDay none [0, 7]).getD 1 "" = "  " := by
  have h := (month_labels monthOfDay [0, 7]).2.2.1 0 (by decide)
  simpa using h

/-- Counterexample to C5 as stated: in the header over the January week
starts 1970-01-01 and 1970-01-08 the emitted blank is two spaces, which
does not have the visual width of a three-character month label. -/
theorem month_label_width_counterexample :
    monthRow monthOfDay none [0, 7] = ["Jan", "  "] ∧
    ¬ (("  " : String).length = ("Jan" : String).length) := by
  exact ⟨rfl, by decide⟩

/-! ### Activity summary -/

/-- C6: the summarizer computes `totalCommits` as the sum of all bucket
values and `activeDays` as the number of dates with a non-zero bucket
(every stored bucket is non-zero, so the map's size counts them), both 0
for the empty map, and the rendered summary is exactly
`"<totalCommits> commits in the last year across <activeDays> days"`. -/
theorem activity_summary (toDate : Int → Option Int) (s t : Int)
    (cs : List Int) :
    totalCommits (bucketize toDate s t cs)
        = ((bucketize toDate s t cs).map Prod.snd).sum ∧
    activeDays (bucketize toDate s t cs)
        = ((bucketize toDate s t cs).filter (fun p => decide (p.2 ≠ 0))).length ∧
    totalCommits ([] : DateBucketMap) = 0 ∧
    activeDays ([] : DateBucketMap) = 0 ∧
    (renderCalendar toDate t cs).summary
      = toString (totalCommits (bucketize toDate (windowStart t) t cs))
          ++ " commits in the last year across "
          ++ toString (activeDays (bucketize toDate (windowStart t) t cs))
          ++ " days" := by
  refine ⟨rfl, ?_, rfl, rfl, rfl⟩
  have hpos : ∀ p ∈ bucketize toDate s t cs, 1 ≤ p.2 :=
    fun p hp => foldl_vals_pos toDate s t cs [] (by simp) p hp
  have hf : (bucketize toDate s t cs).filter (fun p => decide (p.2 ≠ 0))
      = bucketize toDate s t cs := by
    apply List.filter_eq_self.mpr
    intro p hp
    have := hpos p hp
    simp only [decide_eq_true_eq]
    omega
  rw [hf]
  rfl

/-! ### Behaviour on an unusable or empty commit source -/

/-- C7 (amended): when the walk over history is created but cannot be
traversed or yields no commits, the renderer still produces the full empty
calendar — every cell blank (future) or the zero-intensity block, the
five-glyph legend, and the summary `"0 commits in the last year across 0
days"`; but when the revision walk itself cannot be created, the function
returns early and produces no calendar output at all. -/
theorem empty_history_calendar (toDate : Int → Option Int) (today : Int) :
    print_contribution_calendar toDate today (RevwalkResult.walk [])
      = some (renderCalendar toDate today []) ∧
    (renderCalendar toDate today []).summary
      = "0 commits in the last year across 0 days" ∧
    (renderCalendar toDate today []).legend
      = [Glyph.dark, Glyph.yellow, Glyph.orange, Glyph.lightGreen, Glyph.green] ∧
    (∀ row ∈ (renderCalendar toDate today []).grid, ∀ c ∈ row,
      c = Cell.blank ∨ c = Cell.cell Glyph.dark) ∧
    print_contribution_calendar toDate today RevwalkResult.err = none := by
  have h1 : bucketize toDate (windowStart today) today [] = ([] : DateBucketMap) := rfl
  refine ⟨rfl, by simp only [renderCalendar, h1]; decide, rfl, ?_, rfl⟩
  intro row hr c hc
  simp only [renderCalendar, List.mem_map] at hr
  obtain ⟨day, hday, rfl⟩ := hr
  simp only [List.mem_map] at hc
  obtain ⟨week, hweek, rfl⟩ := hc
  simp only [cellAt]
  split
  · exact Or.inl rfl
  · exact Or.inr rfl

/-- Witness for C7 (amended): with the identity conversion and
`today = 0`, the empty walk still yields a rendered calendar. -/
theorem empty_history_calendar_witness :
    print_contribution_calendar (fun n => some n) 0 (RevwalkResult.walk [])
      = some (renderCalendar (fun n => some n) 0 []) :=
  (empty_history_calendar (fun n => some n) 0).1

/-- Counterexample to C7 as stated: when `repo.revwalk()` cannot be
created the function returns early — no calendar output is produced at
all, instead of an empty calendar. -/
theorem revwalk_failure_counterexample :
    print_contribution_calendar (fun n => some n) 0 RevwalkResult.err = none :=
  rfl

end GitCal
